import Mathlib

/-!
Verification of the contextual HTML escaper (runtime auto-escaping derived
from html/template).  Go strings are modelled as `List Char`; the scanner,
nudge resolver, filter selector and stream façade are translated from the
source; parts of the repository that are referenced but whose files are not
available (the context enumerations, the transition functions and the
concrete filter tables) are modelled from the specification, as marked in
their doc comments.
-/

set_option maxHeartbeats 1000000

namespace Escaper

/-- Go strings, modelled as lists of characters. -/
abbrev Str := List Char

/-- Modelled from the spec: the closed set of grammar positions of the
context (spec section 3, "state"); the constructor names are the ones the
source file escaper.go refers to. -/
inductive State where
  | stateText
  | stateTag
  | stateAttrName
  | stateAfterName
  | stateBeforeValue
  | stateHTMLCmt
  | stateRCDATA
  | stateAttr
  | stateURL
  | stateJS
  | stateJSDqStr
  | stateJSSqStr
  | stateJSRegexp
  | stateJSBlockCmt
  | stateJSLineCmt
  | stateCSS
  | stateCSSDqStr
  | stateCSSSqStr
  | stateCSSDqURL
  | stateCSSSqURL
  | stateCSSURL
  | stateCSSBlockCmt
  | stateCSSLineCmt
  | stateError
  deriving DecidableEq

open State

/-- Modelled from the spec: how the current attribute value is bounded. -/
inductive Delim where
  | delimNone
  | delimDoubleQuote
  | delimSingleQuote
  | delimSpaceOrTagEnd
  deriving DecidableEq

open Delim

/-- Modelled from the spec: the element the current tag belongs to
(script/style/textarea/title content is lexed specially). -/
inductive Element where
  | elementNone
  | elementScript
  | elementStyle
  | elementTextarea
  | elementTitle
  deriving DecidableEq

open Element

/-- Modelled from the spec: the semantic class of the current attribute. -/
inductive Attr where
  | attrNone
  | attrScript
  | attrStyle
  | attrURL
  deriving DecidableEq

open Attr

/-- Modelled from the spec: for URL-valued positions, which side of a
`?`/`#` the cursor is on. -/
inductive URLPart where
  | urlPartNone
  | urlPartPreQuery
  | urlPartQueryOrFrag
  | urlPartUnknown
  deriving DecidableEq

open URLPart

/-- Modelled from the spec: whether a `/` appearing next in JS would start a
regexp literal or a division operator. -/
inductive JSCtx where
  | jsCtxRegexp
  | jsCtxDivOp
  | jsCtxUnknown
  deriving DecidableEq

open JSCtx

/-- Modelled from the spec (section 7): the kinds of scan/emission errors the
claims are about, plus a marker for the source's panic on an unexpected state. -/
inductive ErrKind where
  | ErrAmbigContext
  | ErrBadHTML
  | ErrSlashAmbig
  | ErrUnreachablePanic
  deriving DecidableEq

open ErrKind

/-- An error value: a kind plus a human-readable description. -/
structure Err where
  kind : ErrKind
  msg : Str
  deriving DecidableEq

/-- Modelled from the spec (section 3): the context record.  The zero value
(Go's `context{}`) is plain text with no delimiter, no element, no error. -/
structure Context where
  state : State
  delim : Delim
  urlPart : URLPart
  jsCtx : JSCtx
  attr : Attr
  element : Element
  err : Option Err
  deriving DecidableEq

/-- The zero-valued context: Go's `context{}`. -/
def emptyContext : Context :=
  ⟨stateText, delimNone, urlPartNone, jsCtxRegexp, attrNone, elementNone, none⟩

/-- Go's `context{state: stateError, err: ...}`: all other fields are zero. -/
def errorContext (e : Err) : Context :=
  ⟨stateError, delimNone, urlPartNone, jsCtxRegexp, attrNone, elementNone, some e⟩

/-- From the source (part_001): `delimEnds` maps each delim to the string of
characters that terminate it. -/
def delimEnds : Delim → Str
  | delimNone => []
  | delimDoubleQuote => "\"".toList
  | delimSingleQuote => "'".toList
  | delimSpaceOrTagEnd => " \t\n\x0c\r>".toList

/-- From the source (part_001): the characters whose appearance inside an
unquoted attribute value is a fatal ambiguity. -/
def unquotedBadChars : Str := "\"'<=`".toList

/-- `strings.IndexAny`: index of the first character of `s` that belongs to
`cs`, if any. -/
def idxAny (cs : Str) : Str → Option Nat
  | [] => none
  | ch :: rest => if cs.contains ch then some 0 else (idxAny cs rest).map (· + 1)

/-- HTML whitespace, Go's `" \t\n\f\r"`. -/
def isSpaceChar (ch : Char) : Bool :=
  (" \t\n\x0c\r".toList).contains ch

/-- Number of leading whitespace characters. -/
def eatWhiteSpace : Str → Nat
  | [] => 0
  | ch :: rest => if isSpaceChar ch then eatWhiteSpace rest + 1 else 0

/-- Case-sensitive test that `s` starts with `m`. -/
def matchesAtStart : Str → Str → Bool
  | [], _ => true
  | _ :: _, [] => false
  | m :: ms, x :: xs => (x = m) && matchesAtStart ms xs

/-- Case-insensitive test that `s` starts with the (lowercase) marker `m`. -/
def matchesAtStartCI : Str → Str → Bool
  | [], _ => true
  | _ :: _, [] => false
  | m :: ms, x :: xs => (x.toLower = m) && matchesAtStartCI ms xs

/-- Index of the first case-sensitive occurrence of `m` in `s`. -/
def findSub (m : Str) : Str → Option Nat
  | [] => if m = [] then some 0 else none
  | s@(_ :: rest) => if matchesAtStart m s then some 0 else (findSub m rest).map (· + 1)

/-- Index of the first case-insensitive occurrence of the lowercase marker
`m` in `s`. -/
def findSubCI (m : Str) : Str → Option Nat
  | [] => if m = [] then some 0 else none
  | s@(_ :: rest) => if matchesAtStartCI m s then some 0 else (findSubCI m rest).map (· + 1)

/-- Modelled (as a subset sufficient for the literals considered here) from
Go's stdlib `html.UnescapeString` entity table: named character references,
decoded only when the terminating semicolon is present. -/
def namedRefs : List (Str × Char) :=
  [("quest;".toList, '?'), ("quot;".toList, '"'), ("amp;".toList, '&'),
   ("lt;".toList, '<'), ("gt;".toList, '>'), ("apos;".toList, '\'')]

/-- Find a named reference at the start of `s`; returns the decoded character
and the length of the reference text. -/
def findNamedRef (s : Str) : Option (Char × Nat) :=
  (namedRefs.find? fun p => matchesAtStart p.1 s).map fun p => (p.2, p.1.length)

/-- Fuel-indexed worker for `unescapeString`; each step consumes at least one
input character, so fuel `s.length` always suffices. -/
def unescapeAux : Nat → Str → Str
  | 0, s => s
  | _, [] => []
  | f + 1, '&' :: rest =>
      match findNamedRef rest with
      | some (ch, n) => ch :: unescapeAux f (rest.drop n)
      | none => '&' :: unescapeAux f rest
  | f + 1, ch :: rest => ch :: unescapeAux f rest

/-- Modelled (subset) from Go's stdlib `html.UnescapeString`. -/
def unescapeString (s : Str) : Str := unescapeAux s.length s

/-- Modelled (for the ASCII characters appearing here) from Go's `%q`
formatting: the string is wrapped in double quotes and quote, backslash and
control characters are backslash-escaped. -/
def goQuoteChar (ch : Char) : Str :=
  if ch = '"' then ['\\', '"']
  else if ch = '\\' then ['\\', '\\']
  else if ch = '\n' then ['\\', 'n']
  else if ch = '\t' then ['\\', 't']
  else if ch = '\r' then ['\\', 'r']
  else if ch = '\x0c' then ['\\', 'f']
  else [ch]

/-- Modelled from Go's `%q` on a string value. -/
def goQuote (s : Str) : Str :=
  '"' :: s.foldr (fun ch acc => goQuoteChar ch ++ acc) ['"']

/-! ## Transition engine

The transition functions and their dispatch table live in a repository file
that is not available under src/; they are modelled from the specification's
scanner outline (spec section 4.3) and data model (section 3).  Each function
takes the current context and a chunk and returns the next context together
with the number of characters consumed. -/

/-- Modelled from the spec: the `</tagname` end-sequence marker for each
raw-text/RCDATA element. -/
def specialTagEndMarkers : Element → Option Str
  | elementNone => none
  | elementScript => some ("</script".toList)
  | elementStyle => some ("</style".toList)
  | elementTextarea => some ("</textarea".toList)
  | elementTitle => some ("</title".toList)

/-- Modelled from the spec: when the context is inside a special element,
scan for that element's end-tag sequence; on finding it, the context reverts
to plain text at the marker (the marker itself is re-lexed as ordinary
markup), otherwise the whole chunk belongs to the element's content. -/
def tSpecialTagEnd (c : Context) (s : Str) : Context × Nat :=
  match specialTagEndMarkers c.element with
  | none => (c, s.length)
  | some m =>
      match findSubCI m s with
      | some i => ({ emptyContext with state := stateText }, i)
      | none => (c, s.length)

/-- Tag names: ASCII letters and digits. -/
def eatTagName : Str → Str × Nat
  | [] => ([], 0)
  | ch :: rest =>
      if ch.isAlphanum then
        let p := eatTagName rest
        (ch :: p.1, p.2 + 1)
      else ([], 0)

/-- Modelled from the spec: the elements whose content is lexed specially. -/
def elementForName (n : Str) : Element :=
  let l := n.map Char.toLower
  if l = "script".toList then elementScript
  else if l = "style".toList then elementStyle
  else if l = "textarea".toList then elementTextarea
  else if l = "title".toList then elementTitle
  else elementNone

/-- Modelled from the spec: the context in which an element's content is
lexed once its start tag is closed. -/
def elementContentCtx : Element → Context
  | elementNone => emptyContext
  | elementScript => { emptyContext with state := stateJS, element := elementScript }
  | elementStyle => { emptyContext with state := stateCSS, element := elementStyle }
  | elementTextarea => { emptyContext with state := stateRCDATA, element := elementTextarea }
  | elementTitle => { emptyContext with state := stateRCDATA, element := elementTitle }

/-- Modelled from the spec: plain-text scanning; dispatch on the next `<`,
recognising comment openers and tag openers; a dangling `<` at the end of the
chunk remains text. -/
def tTextAux (c : Context) : Str → Nat → Context × Nat
  | [], k => (c, k)
  | '<' :: rest, k =>
      match rest with
      | [] => (c, k + 1)
      | _ :: _ =>
          if matchesAtStart ("!--".toList) rest then
            ({ emptyContext with state := stateHTMLCmt }, k + 4)
          else
            let isEnd : Bool := matchesAtStart ("/".toList) rest
            let body := if isEnd then rest.drop 1 else rest
            match body with
            | [] => (c, k + 1 + (if isEnd then 1 else 0))
            | ch2 :: _ =>
                if ch2.isAlpha then
                  let p := eatTagName body
                  let el := if isEnd then elementNone else elementForName p.1
                  ({ emptyContext with state := stateTag, element := el },
                   k + 1 + (if isEnd then 1 else 0) + p.2)
                else tTextAux c rest (k + 1)
  | _ :: rest, k => tTextAux c rest (k + 1)

/-- Plain-text transition. -/
def tText (c : Context) (s : Str) : Context × Nat := tTextAux c s 0

/-- Modelled from the spec (section 3, "attribute kind"): classify an
attribute name as ordinary, JS-valued (event handler), CSS-valued or
URL-valued. -/
def attrType (name : Str) : Attr :=
  let l := name.map Char.toLower
  if matchesAtStart ("on".toList) l then attrScript
  else if l = "style".toList then attrStyle
  else if l = "href".toList ∨ l = "src".toList ∨ l = "action".toList ∨
          l = "formaction".toList ∨ l = "cite".toList ∨ l = "poster".toList ∨
          l = "background".toList ∨ l = "data".toList then attrURL
  else attrNone

/-- Characters that may appear in an attribute name. -/
def isAttrNameChar (ch : Char) : Bool :=
  !(isSpaceChar ch) && !(("=><\"'`/".toList).contains ch)

/-- Modelled from the spec: inside a tag before an attribute name; skip
whitespace, close the tag on `>`, otherwise read an attribute name and
classify it. -/
def tTag (c : Context) (s : Str) : Context × Nat :=
  let i := eatWhiteSpace s
  match s.drop i with
  | [] => (c, s.length)
  | '>' :: _ => (elementContentCtx c.element, i + 1)
  | ch :: _ =>
      if isAttrNameChar ch then
        let name := (s.drop i).takeWhile isAttrNameChar
        ({ c with state := stateAttrName, attr := attrType name }, i + name.length)
      else (c, i + 1)

/-- Modelled from the spec: inside an attribute name; the name ends at
whitespace (before `=`), at `=` (before the value) or at `>`. -/
def tAttrName (c : Context) (s : Str) : Context × Nat :=
  match idxAny (" \t\n\x0c\r=>".toList) s with
  | none => (c, s.length)
  | some i =>
      match s.drop i with
      | '=' :: _ => ({ c with state := stateBeforeValue }, i + 1)
      | '>' :: _ => (elementContentCtx c.element, i + 1)
      | _ => ({ c with state := stateAfterName }, i + 1)

/-- Modelled from the spec: just after an attribute name, before `=`; an
`=` leads to the value, a `>` closes the tag, anything else begins a new
attribute name. -/
def tAfterName (c : Context) (s : Str) : Context × Nat :=
  let i := eatWhiteSpace s
  match s.drop i with
  | [] => (c, s.length)
  | '=' :: _ => ({ c with state := stateBeforeValue }, i + 1)
  | '>' :: _ => (elementContentCtx c.element, i + 1)
  | _ => ({ c with state := stateAttrName, attr := attrNone }, i)

/-- Modelled from the spec (section 4.4): the start state of an attribute
value for each attribute kind. -/
def attrStartStates : Attr → State
  | attrNone => stateAttr
  | attrScript => stateJS
  | attrStyle => stateCSS
  | attrURL => stateURL

/-- Modelled from the spec: about to start an attribute value; a quote
character fixes the delimiter and is consumed, anything else starts an
unquoted value without consuming. -/
def tBeforeValue (c : Context) (s : Str) : Context × Nat :=
  let i := eatWhiteSpace s
  match s.drop i with
  | [] => (c, s.length)
  | '"' :: _ =>
      ({ c with state := attrStartStates c.attr, delim := delimDoubleQuote }, i + 1)
  | '\'' :: _ =>
      ({ c with state := attrStartStates c.attr, delim := delimSingleQuote }, i + 1)
  | _ =>
      ({ c with state := attrStartStates c.attr, delim := delimSpaceOrTagEnd }, i)

/-- Modelled from the spec: inside an HTML comment until the closing marker. -/
def tHTMLCmt (c : Context) (s : Str) : Context × Nat :=
  match findSub ("-->".toList) s with
  | some i => (emptyContext, i + 3)
  | none => (c, s.length)

/-- Modelled from the spec: RCDATA content carries no markup of its own;
the end tag is recognised by `tSpecialTagEnd`. -/
def tRCDATA (c : Context) (s : Str) : Context × Nat := (c, s.length)

/-- Modelled from the spec: a generic attribute value has no sub-grammar. -/
def tAttr (c : Context) (s : Str) : Context × Nat := (c, s.length)

/-- Modelled from the spec (sections 3 and 8): a literal `?` or `#` moves the
URL cursor into the query-or-fragment part; otherwise the first non-space
content moves it from none to pre-query, and it stays pre-query until a
literal `?` or `#` is actually scanned. -/
def tURL (c : Context) (s : Str) : Context × Nat :=
  if s.any fun ch => ch = '?' ∨ ch = '#' then
    ({ c with urlPart := urlPartQueryOrFrag }, s.length)
  else if s.length ≠ eatWhiteSpace s ∧ c.urlPart = urlPartNone then
    ({ c with urlPart := urlPartPreQuery }, s.length)
  else (c, s.length)

/-- Modelled from the spec heuristic: a character updates the
division-vs-regexp tracker; identifier-like endings make a following slash a
division operator, punctuation makes it a regexp opener. -/
def jsCtxAfterChar (ch : Char) (prev : JSCtx) : JSCtx :=
  if isSpaceChar ch then prev
  else if ch.isAlphanum || ((")]\x7d$_.".toList).contains ch) then jsCtxDivOp
  else jsCtxRegexp

/-- Modelled from the spec: plain JS code; quotes open JS strings, `//` and
slash-star open comments, and a lone slash is a division operator or a regexp
opener according to the tracker (ambiguity is a fatal error). -/
def tJSAux (c : Context) : Str → Nat → Context × Nat
  | [], k => (c, k)
  | '"' :: _, k => ({ c with state := stateJSDqStr }, k + 1)
  | '\'' :: _, k => ({ c with state := stateJSSqStr }, k + 1)
  | '/' :: rest, k =>
      match rest with
      | '/' :: _ => ({ c with state := stateJSLineCmt }, k + 2)
      | '*' :: _ => ({ c with state := stateJSBlockCmt }, k + 2)
      | _ =>
          match c.jsCtx with
          | jsCtxRegexp => ({ c with state := stateJSRegexp }, k + 1)
          | jsCtxDivOp => tJSAux { c with jsCtx := jsCtxRegexp } rest (k + 1)
          | jsCtxUnknown =>
              (errorContext ⟨ErrSlashAmbig, ("slash is ambiguous in JS context".toList)⟩,
               k + 1 + rest.length)
  | ch :: rest, k => tJSAux { c with jsCtx := jsCtxAfterChar ch c.jsCtx } rest (k + 1)

/-- Plain JS transition. -/
def tJS (c : Context) (s : Str) : Context × Nat := tJSAux c s 0

/-- Modelled from the spec: a JS string literal; backslash escapes are
skipped and the closing quote returns to plain JS with the tracker set to
division-operator-next. -/
def tJSStrAux (close : Char) (c : Context) : Str → Nat → Context × Nat
  | [], k => (c, k)
  | ['\\'], k => (c, k + 1)
  | '\\' :: _ :: rest2, k => tJSStrAux close c rest2 (k + 2)
  | ch :: rest, k =>
      if ch = close then ({ c with state := stateJS, jsCtx := jsCtxDivOp }, k + 1)
      else tJSStrAux close c rest (k + 1)

/-- Modelled from the spec: a JS regexp literal; backslash escapes and
character classes are tracked, and the closing slash returns to plain JS. -/
def tJSRegexpAux (c : Context) : Bool → Str → Nat → Context × Nat
  | _, [], k => (c, k)
  | _, ['\\'], k => (c, k + 1)
  | inCharset, '\\' :: _ :: rest2, k => tJSRegexpAux c inCharset rest2 (k + 2)
  | _, '[' :: rest, k => tJSRegexpAux c true rest (k + 1)
  | true, ']' :: rest, k => tJSRegexpAux c false rest (k + 1)
  | false, '/' :: _, k => ({ c with state := stateJS, jsCtx := jsCtxDivOp }, k + 1)
  | inCharset, _ :: rest, k => tJSRegexpAux c inCharset rest (k + 1)

/-- Modelled from the spec: a JS line comment runs to the end of the line. -/
def tJSLineCmt (c : Context) (s : Str) : Context × Nat :=
  match idxAny ("\n\r".toList) s with
  | some i => ({ c with state := stateJS }, i)
  | none => (c, s.length)

/-- Modelled from the spec: a JS block comment runs to the closing marker. -/
def tJSBlockCmt (c : Context) (s : Str) : Context × Nat :=
  match findSub ("*/".toList) s with
  | some i => ({ c with state := stateJS }, i + 2)
  | none => (c, s.length)

/-- Modelled from the spec: plain CSS; quotes open CSS strings, `url(` opens
a CSS url token, slash-star opens a comment. -/
def tCSSAux (c : Context) : Str → Nat → Context × Nat
  | [], k => (c, k)
  | '"' :: _, k => ({ c with state := stateCSSDqStr }, k + 1)
  | '\'' :: _, k => ({ c with state := stateCSSSqStr }, k + 1)
  | '/' :: '*' :: _, k => ({ c with state := stateCSSBlockCmt }, k + 2)
  | '/' :: '/' :: _, k => ({ c with state := stateCSSLineCmt }, k + 2)
  | 'u' :: 'r' :: 'l' :: '(' :: rest, k =>
      match rest with
      | '"' :: _ => ({ c with state := stateCSSDqURL }, k + 5)
      | '\'' :: _ => ({ c with state := stateCSSSqURL }, k + 5)
      | _ => ({ c with state := stateCSSURL }, k + 4)
  | _ :: rest, k => tCSSAux c rest (k + 1)

/-- Plain CSS transition. -/
def tCSS (c : Context) (s : Str) : Context × Nat := tCSSAux c s 0

/-- Modelled from the spec: a CSS string or url token; backslash escapes are
skipped and any closing character returns to plain CSS. -/
def tCSSStrAux (close : Str) (c : Context) : Str → Nat → Context × Nat
  | [], k => (c, k)
  | ['\\'], k => (c, k + 1)
  | '\\' :: _ :: rest2, k => tCSSStrAux close c rest2 (k + 2)
  | ch :: rest, k =>
      if close.contains ch then ({ c with state := stateCSS }, k + 1)
      else tCSSStrAux close c rest (k + 1)

/-- Modelled from the spec: a CSS line comment runs to the end of the line. -/
def tCSSLineCmt (c : Context) (s : Str) : Context × Nat :=
  match idxAny ("\n\r".toList) s with
  | some i => ({ c with state := stateCSS }, i)
  | none => (c, s.length)

/-- Modelled from the spec: a CSS block comment runs to the closing marker. -/
def tCSSBlockCmt (c : Context) (s : Str) : Context × Nat :=
  match findSub ("*/".toList) s with
  | some i => ({ c with state := stateCSS }, i + 2)
  | none => (c, s.length)

/-- Modelled from the spec: the error state is absorbing; the context
propagates unchanged and the chunk is consumed whole. -/
def tError (c : Context) (s : Str) : Context × Nat := (c, s.length)

/-- Modelled from the spec: the per-state dispatch table the scanner uses
(`transitionFunc` in the source). -/
def transitionFunc : State → Context → Str → Context × Nat
  | stateText => tText
  | stateTag => tTag
  | stateAttrName => tAttrName
  | stateAfterName => tAfterName
  | stateBeforeValue => tBeforeValue
  | stateHTMLCmt => tHTMLCmt
  | stateRCDATA => tRCDATA
  | stateAttr => tAttr
  | stateURL => tURL
  | stateJS => tJS
  | stateJSDqStr => fun c s => tJSStrAux '"' c s 0
  | stateJSSqStr => fun c s => tJSStrAux '\'' c s 0
  | stateJSRegexp => fun c s => tJSRegexpAux c false s 0
  | stateJSBlockCmt => tJSBlockCmt
  | stateJSLineCmt => tJSLineCmt
  | stateCSS => tCSS
  | stateCSSDqStr => fun c s => tCSSStrAux ("\"".toList) c s 0
  | stateCSSSqStr => fun c s => tCSSStrAux ("'".toList) c s 0
  | stateCSSDqURL => fun c s => tCSSStrAux ("\"".toList) c s 0
  | stateCSSSqURL => fun c s => tCSSStrAux ("'".toList) c s 0
  | stateCSSURL => fun c s => tCSSStrAux (") \t\n\x0c\r".toList) c s 0
  | stateCSSBlockCmt => tCSSBlockCmt
  | stateCSSLineCmt => tCSSLineCmt
  | stateError => tError

/-- The source's inner re-dispatch loop (part_001, lines 57-60): repeatedly
feed the decoded remaining attribute-value text through the current state's
transition until it is exhausted.  The fuel bounds the iteration count; each
step either consumes input or switches state and then consumes, so the fuel
supplied by the caller always suffices. -/
def dispatchLoop : Nat → Context → Str → Context
  | 0, c, _ => c
  | Nat.succ f, c, u =>
      if u = [] then c
      else
        let p := transitionFunc c.state c u
        dispatchLoop f p.1 (u.drop p.2)

/-- From the source (part_001): the tail of `contextAfterText` once the
delimiter-terminator position `i` is known: either the whole chunk stays
inside the value (decode entities, re-dispatch), or the value is exited,
consuming the terminator exactly when the delimiter is a quote. -/
def contextAfterTextRest (c : Context) (s : Str) (i : Nat) : Context × Nat :=
  if i = s.length then
    (dispatchLoop (2 * (unescapeString s).length + 2) c (unescapeString s), s.length)
  else
    ({ emptyContext with state := stateTag, element := c.element },
     if c.delim = delimSpaceOrTagEnd then i else i + 1)

/-- From the source (part_001, lines 21-70): `contextAfterText` consumes some
tokens from the front of `s` and returns the context after them and the
number of characters consumed. -/
def contextAfterText (c : Context) (s : Str) : Context × Nat :=
  if c.delim = delimNone then
    let p := tSpecialTagEnd c s
    if p.2 = 0 then (p.1, 0)
    else transitionFunc c.state c (s.take p.2)
  else
    let i := (idxAny (delimEnds c.delim) s).getD s.length
    if c.delim = delimSpaceOrTagEnd then
      match idxAny unquotedBadChars (s.take i) with
      | some j =>
          (errorContext ⟨ErrBadHTML,
            goQuote (((s.take i).drop j).take 1) ++ (" in unquoted attr: ".toList) ++
              goQuote (s.take i)⟩,
           s.length)
      | none => contextAfterTextRest c s i
    else contextAfterTextRest c s i

/-- From the source (escaper.go, Literal's loop): advance the context over
the whole string by repeated calls to `contextAfterText`.  Fuel as in
`dispatchLoop`. -/
def scanLoop : Nat → Context → Str → Context
  | 0, c, _ => c
  | Nat.succ f, c, s =>
      if s = [] then c
      else
        let p := contextAfterText c s
        scanLoop f p.1 (s.drop p.2)

/-- The context after a Literal call's scanning loop. -/
def scanText (c : Context) (s : Str) : Context := scanLoop (2 * s.length + 2) c s

/-- From the source (escaper.go, lines 23-36): Literal advances the context
over the whole string; if the resulting context carries an error, that error
is returned and nothing is written, otherwise the raw bytes are written.  The
result is (new context, bytes written, returned error); sink failures are out
of scope (spec section 6). -/
def literal (c : Context) (s : Str) : Context × Str × Option Err :=
  let c' := scanText c s
  match c'.err with
  | some e => (c', [], some e)
  | none => (c', s, none)

/-! ## Nudge resolver (from the source, part_001, lines 98-111) -/

/-- From the source: `nudge` returns the context that would result from
following empty string transitions from the input context. -/
def nudge (c : Context) : Context :=
  match c.state with
  | stateTag => { c with state := stateAttrName }
  | stateBeforeValue =>
      { c with state := attrStartStates c.attr, delim := delimSpaceOrTagEnd,
               attr := attrNone }
  | stateAfterName => { c with state := stateAttrName, attr := attrNone }
  | _ => c

/-! ## Escaping filters

The concrete byte-substitution tables are out of scope (spec section 1:
"their existence, ordering, and selection are in scope; their literal
character-substitution tables are treated as a well-known, swappable
dependency").  Each filter below is modelled from the spec as a simple
transform with the behaviour the spec describes; values are modelled by
their textual form, so each filter is a function on strings. -/

/-- From the source (part_001): the innocuous word emitted in place of
unsafe values. -/
def filterFailsafe : Str := "ZgotmplZ".toList

/-- Escape a single character through a replacement table. -/
def escapeWith (table : Char → Option Str) (s : Str) : Str :=
  s.foldr (fun ch acc => ((table ch).getD [ch]) ++ acc) []

/-- Modelled from the spec: the HTML entity escaper for plain-text context. -/
def htmlEscaper : Str → Str :=
  escapeWith fun ch =>
    if ch = '&' then some ("&amp;".toList)
    else if ch = '<' then some ("&lt;".toList)
    else if ch = '>' then some ("&gt;".toList)
    else if ch = '"' then some ("&#34;".toList)
    else if ch = '\'' then some ("&#39;".toList)
    else none

/-- Modelled from the spec: the RCDATA variant of the entity escaper. -/
def rcdataEscaper : Str → Str := htmlEscaper

/-- Modelled from the spec: the generic HTML-attribute filter that
neutralizes quote characters and ampersands inside quoted values. -/
def attrEscaper : Str → Str := htmlEscaper

/-- Modelled from the spec: the unquoted-delimiter filter, which additionally
forbids whitespace. -/
def htmlNospaceEscaper : Str → Str :=
  escapeWith fun ch =>
    if ch = '&' then some ("&amp;".toList)
    else if ch = '<' then some ("&lt;".toList)
    else if ch = '>' then some ("&gt;".toList)
    else if ch = '"' then some ("&#34;".toList)
    else if ch = '\'' then some ("&#39;".toList)
    else if ch = '=' then some ("&#61;".toList)
    else if ch = '`' then some ("&#96;".toList)
    else if isSpaceChar ch then some ("&#32;".toList)
    else none

/-- Modelled from the spec: the attribute-name filter permits only
identifier-safe characters; anything else is replaced by the failsafe word. -/
def htmlNameFilter (s : Str) : Str :=
  if s ≠ [] ∧ s.all Char.isAlphanum then s.map Char.toLower else filterFailsafe

/-- Modelled from the spec: comments never receive live values safely;
content is defanged (elided). -/
def commentEscaper (_ : Str) : Str := []

/-- Modelled from the spec: the URL-sanitizing filter rejects dangerous
schemes (a scheme is present when a colon appears before any `/`, `?` or
`#`), replacing the whole value with the failsafe word. -/
def urlFilter (s : Str) : Str :=
  match idxAny (":/?#".toList) s with
  | some i =>
      match s.drop i with
      | ':' :: _ =>
          let scheme := (s.take i).map Char.toLower
          if scheme = "http".toList ∨ scheme = "https".toList ∨
             scheme = "mailto".toList then s
          else filterFailsafe
      | _ => s
  | none => s

/-- Hex digits. -/
def hexDigit (n : Nat) : Char :=
  if n < 10 then Char.ofNat ('0'.toNat + n) else Char.ofNat ('A'.toNat + (n - 10))

/-- Percent-encode one character (ASCII model). -/
def pctEncodeChar (ch : Char) : Str :=
  ['%', hexDigit (ch.toNat / 16 % 16), hexDigit (ch.toNat % 16)]

/-- Modelled from the spec: the full percent-encoding filter used in the
query-or-fragment part (all reserved/unsafe characters encoded). -/
def urlEscaper : Str → Str :=
  escapeWith fun ch =>
    if ch.isAlphanum ∨ ("-._~".toList).contains ch then none
    else some (pctEncodeChar ch)

/-- Modelled from the spec: the URL normalizer percent-encodes characters
unsafe inside the current quoting but leaves existing percent-encodings and
the URL's own delimiters intact. -/
def urlNormalizer : Str → Str :=
  escapeWith fun ch =>
    if ch.isAlphanum ∨ ("-._~:/?#[]@!$&()*+,;=%".toList).contains ch then none
    else some (pctEncodeChar ch)

/-- Modelled from the spec: the CSS string escaper (backslash-hex escapes for
dangerous characters). -/
def cssEscaper : Str → Str :=
  escapeWith fun ch =>
    if ("\"'\\<>&/".toList).contains ch ∨ isSpaceChar ch then
      some ('\\' :: hexDigit (ch.toNat / 16 % 16) :: hexDigit (ch.toNat % 16) :: [' '])
    else none

/-- Modelled from the spec: the plain-CSS value filter rejects constructs
able to break out of the declaration. -/
def cssValueFilter (s : Str) : Str :=
  if s.any fun ch => ("\"'\\<>\x7b\x7d;:()".toList).contains ch then filterFailsafe else s

/-- Modelled from the spec: the JS value escaper renders the value as a safe
JS expression (here: a quoted, escaped string literal). -/
def jsValEscaper (s : Str) : Str :=
  '"' :: escapeWith (fun ch =>
    if ch = '"' then some ['\\', '"']
    else if ch = '\\' then some ['\\', '\\']
    else if ch = '/' then some ['\\', '/']
    else if ch = '<' then some ("\\u003C".toList)
    else if ch = '>' then some ("\\u003E".toList)
    else if ch = '\n' then some ['\\', 'n']
    else if ch = '\r' then some ['\\', 'r']
    else none) s ++ ['"']

/-- Modelled from the spec: the JS string escaper. -/
def jsStrEscaper : Str → Str :=
  escapeWith fun ch =>
    if ch = '"' then some ['\\', '"']
    else if ch = '\'' then some ['\\', '\'']
    else if ch = '\\' then some ['\\', '\\']
    else if ch = '/' then some ['\\', '/']
    else if ch = '<' then some ("\\u003C".toList)
    else if ch = '>' then some ("\\u003E".toList)
    else if ch = '\n' then some ['\\', 'n']
    else if ch = '\r' then some ['\\', 'r']
    else none

/-- Modelled from the spec: the JS regexp escaper. -/
def jsRegexpEscaper : Str → Str :=
  escapeWith fun ch =>
    if (".?*+^$[]()|\x7b\x7d\\/<>'\"".toList).contains ch then some ['\\', ch]
    else none

/-! ## The Value path (from the source, escaper.go lines 40-118) -/

/-- From the source: the states handled by the URL branch of Value's switch
(`case stateURL, stateCSSDqStr, stateCSSSqStr, stateCSSDqURL, stateCSSSqURL,
stateCSSURL`). -/
def isURLValueState (st : State) : Prop :=
  st = stateURL ∨ st = stateCSSDqStr ∨ st = stateCSSSqStr ∨
    st = stateCSSDqURL ∨ st = stateCSSSqURL ∨ st = stateCSSURL

instance (st : State) : Decidable (isURLValueState st) := by
  unfold isURLValueState
  infer_instance

/-- Modelled from the spec (section 3): the comment states. -/
def isComment (st : State) : Prop :=
  st = stateHTMLCmt ∨ st = stateJSBlockCmt ∨ st = stateJSLineCmt ∨
    st = stateCSSBlockCmt ∨ st = stateCSSLineCmt

instance (st : State) : Decidable (isComment st) := by
  unfold isComment
  infer_instance

/-- Result of Value's switch: either an immediate error return (with the
context it leaves behind), or the working context together with the selected
context-specific filters. -/
inductive SelectRes where
  | errRes (c : Context) (e : Option Err)
  | okRes (c : Context) (fs : List (Str → Str))

/-- From the source (escaper.go, lines 49-100): the switch on the nudged
context's state that selects the context-specific filters, possibly mutating
the context (stateJS sets the tracker to division-operator-next; stateTag and
stateAttrName move to stateAttrName) or failing (stateError; ambiguous URL
part).  The `v` argument only feeds the error message. -/
def valueSelect (c : Context) (v : Str) : SelectRes :=
  if c.state = stateError then .errRes c c.err
  else if isURLValueState c.state then
    match c.urlPart with
    | urlPartNone =>
        let inner :=
          if c.state = stateCSSDqStr ∨ c.state = stateCSSSqStr then cssEscaper
          else urlNormalizer
        .okRes c [urlFilter, inner]
    | urlPartPreQuery =>
        let inner :=
          if c.state = stateCSSDqStr ∨ c.state = stateCSSSqStr then cssEscaper
          else urlNormalizer
        .okRes c [inner]
    | urlPartQueryOrFrag => .okRes c [urlEscaper]
    | urlPartUnknown =>
        let e : Err := ⟨ErrAmbigContext,
          ("tried to print ".toList) ++ v ++ (" in an ambiguous URL context".toList)⟩
        .errRes (errorContext e) (some e)
  else if c.state = stateJS then .okRes { c with jsCtx := jsCtxDivOp } [jsValEscaper]
  else if c.state = stateJSDqStr ∨ c.state = stateJSSqStr then .okRes c [jsStrEscaper]
  else if c.state = stateJSRegexp then .okRes c [jsRegexpEscaper]
  else if c.state = stateCSS then .okRes c [cssValueFilter]
  else if c.state = stateText then .okRes c [htmlEscaper]
  else if c.state = stateRCDATA then .okRes c [rcdataEscaper]
  else if c.state = stateAttr then .okRes c []
  else if c.state = stateAttrName ∨ c.state = stateTag then
    .okRes { c with state := stateAttrName } [htmlNameFilter]
  else if isComment c.state then .okRes c [commentEscaper]
  else
    -- the source panics here ("unexpected state"); unreachable after nudge
    .errRes c (some ⟨ErrUnreachablePanic, ("unexpected state".toList)⟩)

/-- Apply a filter pipeline left to right. -/
def applyFilters (fs : List (Str → Str)) (v : Str) : Str :=
  fs.foldl (fun acc f => f acc) v

/-- From the source (escaper.go, lines 101-108): the outer delimiter-aware
filter appended after the context-specific ones. -/
def delimFilters (c : Context) : List (Str → Str) :=
  match c.delim with
  | delimNone => []
  | delimSpaceOrTagEnd => [htmlNospaceEscaper]
  | _ => [attrEscaper]

/-- Result of a write operation of the façade: the new context, the bytes
written, and the returned error. -/
structure VRes where
  ctx : Context
  out : Str
  err : Option Err
  deriving DecidableEq

/-- The body of Value after the automatic-quoting check: nudge, select
filters, apply them, and write the result through `literal`.  When the filter
list is empty the source falls back to `stringify(v)`, which for a value
modelled by its text is that text itself (`applyFilters [] v = v`). -/
def valueBody (c0 : Context) (v : Str) : VRes :=
  let c := nudge c0
  match valueSelect c v with
  | .errRes c' e => ⟨c', [], e⟩
  | .okRes c' fs =>
      let w := applyFilters (fs ++ delimFilters c') v
      let p := literal c' w
      ⟨p.1, p.2.1, p.2.2⟩

/-- From the source (escaper.go, lines 40-118): Value; when called in
stateBeforeValue the façade first writes a literal double-quote and defers a
closing double-quote until after the value (both through Literal, whose
return value is discarded, exactly as in the source). -/
def value (c : Context) (v : Str) : VRes :=
  if c.state = stateBeforeValue then
    let p1 := literal c ['"']
    let r := valueBody p1.1 v
    let p2 := literal r.ctx ['"']
    ⟨p2.1, p1.2.1 ++ (r.out ++ p2.2.1), r.err⟩
  else valueBody c v

/-- The context after the automatically written opening quote. -/
def openQuoteCtx (c : Context) : Context := (literal c ['"']).1

/-- The filtered text a Value call computes for its working context: the
selected context-specific filters followed by the delimiter-aware filter,
applied to the value's text (empty on the refusal paths). -/
def valueFiltered (c0 : Context) (v : Str) : Str :=
  match valueSelect (nudge c0) v with
  | .errRes _ _ => []
  | .okRes c' fs => applyFilters (fs ++ delimFilters c') v

/-! ## Print (from the source, escaper.go lines 122-157)

Print walks its arguments deciding, per argument, whether it is written as
literal HTML or as an escaped value.  The model captures that interpretation
decision: an argument is a plain string, a nested List, or any other value
(identified by an opaque tag); the walk yields the sequence of operations
Print performs.  The mutual inductive mirrors Go's `[]interface{}` holding
strings, `List`s and other values. -/

mutual
/-- One argument of Print. -/
inductive Arg where
  | astr (s : Str)
  | aother (n : Nat)
  | alist (l : ArgList)

/-- An argument list of Print (also the payload of a nested List). -/
inductive ArgList where
  | anil
  | acons (a : Arg) (l : ArgList)
end

/-- One operation Print performs for an argument. -/
inductive POp where
  | lit (s : Str)
  | valStr (s : Str)
  | valOther (n : Nat)
  deriving DecidableEq

/-- From the source: Print's argument walk with its `prevWasLiteral` flag.
A string is written as a literal when the flag is clear (setting it) and as
an escaped value when the flag is set (clearing it); a nested List is walked
recursively with a clear flag and clears the parent's flag afterwards; any
other value is escaped as a value and clears the flag. -/
def printWalk : ArgList → Bool → List POp
  | ArgList.anil, _ => []
  | ArgList.acons (Arg.astr s) rest, prevWasLiteral =>
      if prevWasLiteral then POp.valStr s :: printWalk rest false
      else POp.lit s :: printWalk rest true
  | ArgList.acons (Arg.aother n) rest, _ => POp.valOther n :: printWalk rest false
  | ArgList.acons (Arg.alist l) rest, _ => printWalk l false ++ printWalk rest false

/-- The operations a top-level Print call performs. -/
def printOps (l : ArgList) : List POp := printWalk l false

/-- The claim's stated semantics (C6, as written): consecutive plain-string
items strictly alternate starting with literal; non-string items are always
values and do not participate in the alternation count; a nested List resets
the alternation for its own contents and does not affect the parent's
counter. -/
def printSpecOrig : ArgList → Bool → List POp
  | ArgList.anil, _ => []
  | ArgList.acons (Arg.astr s) rest, parity =>
      (if parity then POp.valStr s else POp.lit s) :: printSpecOrig rest (!parity)
  | ArgList.acons (Arg.aother n) rest, parity =>
      POp.valOther n :: printSpecOrig rest parity
  | ArgList.acons (Arg.alist l) rest, parity =>
      printSpecOrig l false ++ printSpecOrig rest parity

/-! ## Content classifier (from the source, part_000)

Go values are modelled by a closed inductive: the trusted marker types, the
capabilities (implements fmt.Stringer / implements error, assumed declared
with value receivers so a pointer to such a value also implements the
capability), pointers, nil, and everything else (with its default textual
representation).  Addresses of plain pointers never reach formatting in
`stringify` (they are always dereferenced first), so a plain pointer's
rendering is an opaque marker. -/

/-- From the source (part_000): the content types. -/
inductive ContentType where
  | contentTypePlain
  | contentTypeCSS
  | contentTypeHTML
  | contentTypeHTMLAttr
  | contentTypeJS
  | contentTypeJSStr
  | contentTypeURL
  | contentTypeUnsafe
  deriving DecidableEq

open ContentType

/-- A Go value as seen by the classifier. -/
inductive GoVal where
  | vnil
  | vstr (s : Str)
  | vcss (s : Str)
  | vhtml (s : Str)
  | vhtmlAttr (s : Str)
  | vjs (s : Str)
  | vjsStr (s : Str)
  | vurl (s : Str)
  | vstringer (txt : Str)
  | verr (txt : Str)
  | vptr (v : GoVal)
  | vnilPtr
  | vother (txt : Str)
  deriving DecidableEq

/-- Whether the value implements fmt.Stringer (value receiver, so pointers
inherit it). -/
def implementsStringer : GoVal → Bool
  | GoVal.vstringer _ => true
  | GoVal.vptr v => implementsStringer v
  | _ => false

/-- Whether the value implements error (value receiver, so pointers
inherit it). -/
def implementsError : GoVal → Bool
  | GoVal.verr _ => true
  | GoVal.vptr v => implementsError v
  | _ => false

/-- From the source (part_000, lines 31-44): dereference as many times as
necessary to reach the base type (or nil). -/
def indirect : GoVal → GoVal
  | GoVal.vnil => GoVal.vnil
  | GoVal.vptr v => indirect v
  | v => v

/-- From the source (part_000, lines 54-63): dereference until the base type
(or nil) or an implementation of fmt.Stringer or error is reached. -/
def indirectToStringerOrError : GoVal → GoVal
  | GoVal.vnil => GoVal.vnil
  | GoVal.vptr v =>
      if implementsStringer (GoVal.vptr v) || implementsError (GoVal.vptr v) then
        GoVal.vptr v
      else indirectToStringerOrError v
  | v => v

/-- Whether fmt sees the operand as a string (reflect kind string: the plain
string and the trusted marker types, which are named string types). -/
def isStringKind : GoVal → Bool
  | GoVal.vstr _ => true
  | GoVal.vcss _ => true
  | GoVal.vhtml _ => true
  | GoVal.vhtmlAttr _ => true
  | GoVal.vjs _ => true
  | GoVal.vjsStr _ => true
  | GoVal.vurl _ => true
  | _ => false

/-- The default textual representation of one operand, modelled from
fmt's rules: Stringer/error capabilities are used when present (also through
a pointer); nil prints as its marker; a plain pointer that reaches
formatting would print its address, modelled as an opaque marker. -/
def sprintOne : GoVal → Str
  | GoVal.vnil => "<nil>".toList
  | GoVal.vnilPtr => "<nil>".toList
  | GoVal.vstr s => s
  | GoVal.vcss s => s
  | GoVal.vhtml s => s
  | GoVal.vhtmlAttr s => s
  | GoVal.vjs s => s
  | GoVal.vjsStr s => s
  | GoVal.vurl s => s
  | GoVal.vstringer t => t
  | GoVal.verr t => t
  | GoVal.vother t => t
  | GoVal.vptr v =>
      if implementsStringer (GoVal.vptr v) || implementsError (GoVal.vptr v) then
        sprintOne v
      else "<pointer>".toList

/-- Modelled from Go's stdlib `fmt.Sprint` loop: operands are formatted in
order and a space is inserted between two operands when neither is a
string. -/
def doPrintAux : Bool → Bool → List GoVal → Str
  | _, _, [] => []
  | isFirst, prevString, v :: rest =>
      (if isFirst || isStringKind v || prevString then [] else [' ']) ++
        sprintOne v ++ doPrintAux false (isStringKind v) rest

/-- Modelled from Go's stdlib `fmt.Sprint`. -/
def fmtSprint (args : List GoVal) : Str := doPrintAux true false args

/-- From the source (part_000, lines 67-90): stringify converts its
arguments to a string and the type of the content. -/
def stringify (args : List GoVal) : Str × ContentType :=
  match args with
  | [a] =>
      match indirect a with
      | GoVal.vstr s => (s, contentTypePlain)
      | GoVal.vcss s => (s, contentTypeCSS)
      | GoVal.vhtml s => (s, contentTypeHTML)
      | GoVal.vhtmlAttr s => (s, contentTypeHTMLAttr)
      | GoVal.vjs s => (s, contentTypeJS)
      | GoVal.vjsStr s => (s, contentTypeJSStr)
      | GoVal.vurl s => (s, contentTypeURL)
      | _ => (fmtSprint [indirectToStringerOrError a], contentTypePlain)
  | _ => (fmtSprint (args.map indirectToStringerOrError), contentTypePlain)

/-- The trusted-content extraction table, as the spec words it (section
4.2): the text and trust tag of a value already carrying a marker type. -/
def trustedOf : GoVal → Option (Str × ContentType)
  | GoVal.vstr s => some (s, contentTypePlain)
  | GoVal.vcss s => some (s, contentTypeCSS)
  | GoVal.vhtml s => some (s, contentTypeHTML)
  | GoVal.vhtmlAttr s => some (s, contentTypeHTMLAttr)
  | GoVal.vjs s => some (s, contentTypeJS)
  | GoVal.vjsStr s => some (s, contentTypeJSStr)
  | GoVal.vurl s => some (s, contentTypeURL)
  | _ => none

/-- Pairwise-neighbour formulation of the separator rule: a space between
two adjacent operands when neither is a string. -/
def spaceJoin : List GoVal → Str
  | [] => []
  | [v] => sprintOne v
  | v :: w :: rest =>
      sprintOne v ++ (if isStringKind v || isStringKind w then [] else [' ']) ++
        spaceJoin (w :: rest)

/-- The amended claim C7's semantics, following the spec's words: a single
argument is reduced through pointer indirections with the
stop-at-Stringer-or-error rule; if the reduced value carries a trusted marker
(or is a plain string) its text and tag are used; otherwise all arguments are
independently reduced with the same stop rule and their default textual
representations are concatenated, with a space between two adjacent operands
when neither is a string. -/
def stringifySpec (args : List GoVal) : Str × ContentType :=
  match args with
  | [a] =>
      let r := indirectToStringerOrError a
      match trustedOf r with
      | some p => p
      | none => (spaceJoin [r], contentTypePlain)
  | _ => (spaceJoin (args.map indirectToStringerOrError), contentTypePlain)

/-- The original claim C7's multi-argument semantics as stated:
representations concatenated with no separator. -/
def noSepConcat (args : List GoVal) : Str :=
  (args.map (fun a => sprintOne (indirectToStringerOrError a))).foldr
    (fun x acc => x ++ acc) []

/-- The error value produced when a value is printed in an ambiguous URL
context (escaper.go, line 69). -/
def ambigErr (v : Str) : Err :=
  ⟨ErrAmbigContext,
   ("tried to print ".toList) ++ v ++ (" in an ambiguous URL context".toList)⟩

/-- The context `<a href="` leaves the scanner in: inside a double-quoted
URL-valued attribute, before any query separator. -/
def hrefQuotedCtx : Context :=
  ⟨stateURL, delimDoubleQuote, urlPartNone, jsCtxRegexp, attrURL, elementNone, none⟩

/-! ## Helper lemmas -/

theorem scanLoop_nil (f : Nat) (c : Context) : scanLoop f c [] = c := by
  cases f <;> rfl

theorem scanLoop_step (f : Nat) (c : Context) (ch : Char) (rest : Str) :
    scanLoop (f + 1) c (ch :: rest) =
      scanLoop f (contextAfterText c (ch :: rest)).1
        ((ch :: rest).drop (contextAfterText c (ch :: rest)).2) := rfl

theorem scanText_cons (c : Context) (ch : Char) (rest : Str) :
    scanText c (ch :: rest) =
      scanLoop (2 * rest.length + 3) (contextAfterText c (ch :: rest)).1
        ((ch :: rest).drop (contextAfterText c (ch :: rest)).2) := by
  have h : 2 * (ch :: rest).length + 2 = (2 * rest.length + 3) + 1 := by
    simp [List.length_cons]
    ring
  rw [scanText, h, scanLoop_step]

theorem idxAny_lt {cs : Str} : ∀ {s : Str} {i : Nat}, idxAny cs s = some i → i < s.length := by
  intro s
  induction s with
  | nil => intro i h; simp [idxAny] at h
  | cons ch rest ih =>
      intro i h
      simp only [idxAny] at h
      by_cases hc : cs.contains ch = true
      · rw [if_pos hc] at h
        injection h with h
        simp only [List.length_cons]
        omega
      · rw [if_neg hc] at h
        rw [Option.map_eq_some'] at h
        obtain ⟨j, hj, hji⟩ := h
        have := ih hj
        simp only [List.length_cons]
        omega

theorem idxAny_take {cs : Str} :
    ∀ {s : Str} {n i : Nat}, idxAny cs s = some i → i < n → idxAny cs (s.take n) = some i := by
  intro s
  induction s with
  | nil => intro n i h; simp [idxAny] at h
  | cons ch rest ih =>
      intro n i h hn
      cases n with
      | zero => omega
      | succ m =>
          simp only [idxAny] at h
          simp only [List.take_succ_cons, idxAny]
          by_cases hc : cs.contains ch = true
          · rw [if_pos hc] at h
            rw [if_pos hc]
            exact h
          · rw [if_neg hc] at h
            rw [Option.map_eq_some'] at h
            obtain ⟨j, hj, hji⟩ := h
            have hjm : j < m := by omega
            rw [if_neg hc, ih hj hjm]
            simp [hji]

theorem scanText_error_absorb (c : Context) (s : Str)
    (h1 : c.state = stateError) (h3 : c.delim = delimNone) (h4 : c.element = elementNone) :
    scanText c s = c := by
  cases s with
  | nil => simp [scanText, scanLoop_nil]
  | cons ch rest =>
      have hca : contextAfterText c (ch :: rest) = (c, (ch :: rest).length) := by
        simp [contextAfterText, h3, tSpecialTagEnd, h4, specialTagEndMarkers, h1,
          transitionFunc, tError]
      rw [scanText_cons, hca]
      simp [scanLoop_nil]

theorem literal_error_absorb (c : Context) (e : Err) (s : Str)
    (h1 : c.state = stateError) (h2 : c.err = some e)
    (h3 : c.delim = delimNone) (h4 : c.element = elementNone) :
    literal c s = (c, [], some e) := by
  simp [literal, scanText_error_absorb c s h1 h3 h4, h2]

theorem value_error_absorb (c : Context) (e : Err) (t : Str)
    (h1 : c.state = stateError) (h2 : c.err = some e) :
    value c t = ⟨c, [], some e⟩ := by
  simp [value, h1, valueBody, nudge, valueSelect, h2]

theorem literal_out_none (c : Context) (s : Str) (h : (literal c s).2.2 = none) :
    (literal c s).2.1 = s := by
  unfold literal at h ⊢
  cases hx : (scanText c s).err <;> simp [hx] at h ⊢

theorem valueBody_out (c0 : Context) (v : Str) (he : (valueBody c0 v).err = none) :
    (valueBody c0 v).out = valueFiltered c0 v := by
  unfold valueBody valueFiltered at *
  cases h : valueSelect (nudge c0) v with
  | errRes c' e => simp [h]
  | okRes c' fs =>
      simp [h] at he ⊢
      exact literal_out_none c' (applyFilters (fs ++ delimFilters c') v) he

/-! ## The claims -/

/-- Claim C1 (code_bug): chunk-boundary independence of the scanner fails.
Starting from the context of `<a href="` (inside a double-quoted URL-valued
attribute value), advancing over the literal text `&quest;` in one call
decodes the character reference to `?` and moves the URL part to
query-or-fragment, but advancing over the same text as the two chunks `&que`
and `st;` decodes each chunk separately, never sees the `?`, and leaves the
URL part at pre-query — a different final context, although the spec makes
chunk-boundary independence a hard requirement. -/
theorem c1_chunk_boundary_dependence :
    scanText (scanText hrefQuotedCtx ("&que".toList)) ("st;".toList) ≠
        scanText hrefQuotedCtx ("&quest;".toList) ∧
      (scanText hrefQuotedCtx ("&quest;".toList)).urlPart = urlPartQueryOrFrag ∧
      (scanText (scanText hrefQuotedCtx ("&que".toList)) ("st;".toList)).urlPart =
        urlPartPreQuery := by
  decide

/-- Claim C2: the error context is absorbing and permanent.  Once the
stream's context is in the error state with a non-nil error (error contexts
are always produced with no delimiter and no element), every subsequent
Literal or Value call returns that same error, leaves the context unchanged,
and writes nothing. -/
theorem c2_error_context_absorbing (c : Context) (e : Err) (s t : Str)
    (h1 : c.state = stateError) (h2 : c.err = some e)
    (h3 : c.delim = delimNone) (h4 : c.element = elementNone) :
    literal c s = (c, [], some e) ∧ value c t = ⟨c, [], some e⟩ :=
  ⟨literal_error_absorb c e s h1 h2 h3 h4, value_error_absorb c e t h1 h2⟩

/-- Witness for C2 at a concrete error context and concrete inputs. -/
theorem c2_error_context_absorbing_witness :
    literal (errorContext ⟨ErrBadHTML, "x".toList⟩) ("ab".toList) =
        (errorContext ⟨ErrBadHTML, "x".toList⟩, [], some ⟨ErrBadHTML, "x".toList⟩) ∧
      value (errorContext ⟨ErrBadHTML, "x".toList⟩) ("cd".toList) =
        ⟨errorContext ⟨ErrBadHTML, "x".toList⟩, [], some ⟨ErrBadHTML, "x".toList⟩⟩ :=
  c2_error_context_absorbing (errorContext ⟨ErrBadHTML, "x".toList⟩)
    ⟨ErrBadHTML, "x".toList⟩ ("ab".toList) ("cd".toList) rfl rfl rfl rfl

/-- Claim C3: for every value, calling Value while the context is a
URL-typed state whose url part is unknown refuses the emission: nothing is
written, the returned error has kind ErrAmbigContext, and the context
becomes — and, by the absorption of the error context, stays — the error
state. -/
theorem c3_ambiguous_url_refusal (c : Context) (v t : Str)
    (hu : isURLValueState c.state) (hp : c.urlPart = urlPartUnknown) :
    value c v = ⟨errorContext (ambigErr v), [], some (ambigErr v)⟩ ∧
      (ambigErr v).kind = ErrAmbigContext ∧
      literal (errorContext (ambigErr v)) t =
        (errorContext (ambigErr v), [], some (ambigErr v)) ∧
      value (errorContext (ambigErr v)) t =
        ⟨errorContext (ambigErr v), [], some (ambigErr v)⟩ := by
  refine ⟨?_, rfl, literal_error_absorb _ _ _ rfl rfl rfl rfl,
    value_error_absorb _ _ _ rfl rfl⟩
  rcases hu with h | h | h | h | h | h <;>
    simp [value, valueBody, nudge, valueSelect, isURLValueState, h, hp, ambigErr]

/-- Witness for C3 at the concrete context of an ambiguous URL attribute. -/
theorem c3_ambiguous_url_refusal_witness :
    value ⟨stateURL, delimDoubleQuote, urlPartUnknown, jsCtxRegexp, attrURL,
        elementNone, none⟩ ("x".toList) =
      ⟨errorContext (ambigErr ("x".toList)), [], some (ambigErr ("x".toList))⟩ ∧
      (ambigErr ("x".toList)).kind = ErrAmbigContext ∧
      literal (errorContext (ambigErr ("x".toList))) ("y".toList) =
        (errorContext (ambigErr ("x".toList)), [], some (ambigErr ("x".toList))) ∧
      value (errorContext (ambigErr ("x".toList))) ("y".toList) =
        ⟨errorContext (ambigErr ("x".toList)), [], some (ambigErr ("x".toList))⟩ :=
  c3_ambiguous_url_refusal
    ⟨stateURL, delimDoubleQuote, urlPartUnknown, jsCtxRegexp, attrURL, elementNone, none⟩
    ("x".toList) ("y".toList) (Or.inl rfl) rfl

/-- Claim C5: atomicity of Literal.  Literal's result is exactly: the
context after scanning the whole string, the raw input bytes if that context
is error-free and no bytes at all otherwise, and that context's error. -/
theorem c5_literal_atomicity (c : Context) (s : Str) :
    literal c s =
      (scanText c s,
       (if (scanText c s).err = none then s else []),
       (scanText c s).err) := by
  unfold literal
  cases h : (scanText c s).err <;> simp [h]

/-- Claim C10 (implicit): nudge changes only the three before states —
in-tag, before-attribute-value and after-attribute-name — and is the
identity on every other context (all fields included); consequently nudge is
idempotent. -/
theorem c10_nudge_identity_idempotent (c : Context) :
    nudge (nudge c) = nudge c ∧
      (c.state = stateTag ∨ c.state = stateBeforeValue ∨ c.state = stateAfterName ∨
        nudge c = c) := by
  obtain ⟨st, d, up, jc, ak, el, er⟩ := c
  constructor
  · cases st <;> cases ak <;> simp [nudge, attrStartStates]
  · cases st <;> simp [nudge]

/-- Claim C4: while scanning an attribute value with the space-or-tag-end
(unquoted) delimiter, if one of the characters double-quote, single-quote,
`<`, `=` or backtick appears before the value's terminator, the scanner moves
to the error state with kind ErrBadHTML and a descriptive message, consuming
the whole chunk; a subsequent write attempt returns that same error and
writes nothing. -/
theorem c4_unquoted_attr_bad_char_error (c : Context) (s : Str) (j : Nat)
    (hd : c.delim = delimSpaceOrTagEnd)
    (hj : idxAny unquotedBadChars s = some j)
    (hlt : j < (idxAny (delimEnds delimSpaceOrTagEnd) s).getD s.length) :
    ∃ msg,
      contextAfterText c s = (errorContext ⟨ErrBadHTML, msg⟩, s.length) ∧
      ∀ u, literal (errorContext ⟨ErrBadHTML, msg⟩) u =
        (errorContext ⟨ErrBadHTML, msg⟩, [], some ⟨ErrBadHTML, msg⟩) := by
  have hj2 : idxAny unquotedBadChars
      (s.take ((idxAny (delimEnds delimSpaceOrTagEnd) s).getD s.length)) = some j := by
    cases hterm : idxAny (delimEnds delimSpaceOrTagEnd) s with
    | none =>
        simp only [hterm, Option.getD_none]
        rw [List.take_length]
        exact hj
    | some tIdx =>
        rw [hterm] at hlt
        simp only [hterm, Option.getD_some] at hlt ⊢
        exact idxAny_take hj hlt
  refine ⟨goQuote (((s.take ((idxAny (delimEnds delimSpaceOrTagEnd) s).getD
        s.length)).drop j).take 1) ++ (" in unquoted attr: ".toList) ++
      goQuote (s.take ((idxAny (delimEnds delimSpaceOrTagEnd) s).getD s.length)),
    ?_, fun u => literal_error_absorb _ _ u rfl rfl rfl rfl⟩
  simp [contextAfterText, hd, hj2]

/-- Witness for C4: scanning `a"b` inside an unquoted attribute value. -/
theorem c4_unquoted_attr_bad_char_error_witness :
    ∃ msg,
      contextAfterText
          ⟨stateAttr, delimSpaceOrTagEnd, urlPartNone, jsCtxRegexp, attrNone,
            elementNone, none⟩ ("a\"b".toList) =
        (errorContext ⟨ErrBadHTML, msg⟩, ("a\"b".toList).length) ∧
      ∀ u, literal (errorContext ⟨ErrBadHTML, msg⟩) u =
        (errorContext ⟨ErrBadHTML, msg⟩, [], some ⟨ErrBadHTML, msg⟩) :=
  c4_unquoted_attr_bad_char_error
    ⟨stateAttr, delimSpaceOrTagEnd, urlPartNone, jsCtxRegexp, attrNone, elementNone, none⟩
    ("a\"b".toList) 1 rfl (by decide) (by decide)

/-- Claim C9: attribute-value exit behaviour.  When a terminator for the
current delimiter occurs in the chunk (and, for the unquoted delimiter, no
error character precedes it), the scanner returns the inside-tag context
that preserves only the element and discards delimiter, attribute kind, url
part and js context; the terminator is consumed for quote delimiters and not
consumed for the space-or-tag-end delimiter. -/
theorem c9_attr_value_exit (c : Context) (s : Str) (i : Nat)
    (hne : c.delim ≠ delimNone)
    (hi : idxAny (delimEnds c.delim) s = some i)
    (hbad : c.delim = delimSpaceOrTagEnd →
      idxAny unquotedBadChars (s.take i) = none) :
    contextAfterText c s =
      ({ emptyContext with state := stateTag, element := c.element },
       if c.delim = delimSpaceOrTagEnd then i else i + 1) := by
  have hlt := idxAny_lt hi
  have hne2 : ¬(i = s.length) := by omega
  by_cases hsp : c.delim = delimSpaceOrTagEnd
  · have hb := hbad hsp
    rw [hsp] at hi
    simp [contextAfterText, hne, hi, hsp, hb, contextAfterTextRest, hne2]
  · simp [contextAfterText, hne, hi, hsp, contextAfterTextRest, hne2]

/-- Witness for C9: exiting a double-quoted value at `ab"cd` (terminator
consumed) and an unquoted value at `ab cd` (terminator not consumed). -/
theorem c9_attr_value_exit_witness :
    contextAfterText
        ⟨stateURL, delimDoubleQuote, urlPartPreQuery, jsCtxRegexp, attrURL,
          elementScript, none⟩ ("ab\"cd".toList) =
      ({ emptyContext with state := stateTag, element := elementScript },
       if (⟨stateURL, delimDoubleQuote, urlPartPreQuery, jsCtxRegexp, attrURL,
          elementScript, none⟩ : Context).delim = delimSpaceOrTagEnd then 2 else 2 + 1) ∧
    contextAfterText
        ⟨stateAttr, delimSpaceOrTagEnd, urlPartNone, jsCtxRegexp, attrNone,
          elementNone, none⟩ ("ab cd".toList) =
      ({ emptyContext with state := stateTag, element := elementNone },
       if (⟨stateAttr, delimSpaceOrTagEnd, urlPartNone, jsCtxRegexp, attrNone,
          elementNone, none⟩ : Context).delim = delimSpaceOrTagEnd then 2 else 2 + 1) :=
  ⟨c9_attr_value_exit
      ⟨stateURL, delimDoubleQuote, urlPartPreQuery, jsCtxRegexp, attrURL,
        elementScript, none⟩ ("ab\"cd".toList) 2 (by decide) (by decide) (by decide),
    c9_attr_value_exit
      ⟨stateAttr, delimSpaceOrTagEnd, urlPartNone, jsCtxRegexp, attrNone,
        elementNone, none⟩ ("ab cd".toList) 2 (by decide) (by decide) (by decide)⟩

/-- Counterexample to claim C6 as stated.  The claim says non-string items
do not participate in the alternation count and that a nested List does not
affect the parent's counter; on the arguments `"a"`, a non-string value, and
`"b"`, that semantics would escape `"b"` as a value, but Print resets its
flag after the non-string item and writes `"b"` as literal HTML. -/
theorem c6_alternation_counterexample :
    printOps (ArgList.acons (Arg.astr ("a".toList))
        (ArgList.acons (Arg.aother 7) (ArgList.acons (Arg.astr ("b".toList)) ArgList.anil))) ≠
      printSpecOrig (ArgList.acons (Arg.astr ("a".toList))
        (ArgList.acons (Arg.aother 7) (ArgList.acons (Arg.astr ("b".toList)) ArgList.anil)))
        false ∧
    printOps (ArgList.acons (Arg.astr ("a".toList))
        (ArgList.acons (Arg.aother 7) (ArgList.acons (Arg.astr ("b".toList)) ArgList.anil))) =
      [POp.lit ("a".toList), POp.valOther 7, POp.lit ("b".toList)] ∧
    printSpecOrig (ArgList.acons (Arg.astr ("a".toList))
        (ArgList.acons (Arg.aother 7) (ArgList.acons (Arg.astr ("b".toList)) ArgList.anil)))
        false =
      [POp.lit ("a".toList), POp.valOther 7, POp.valStr ("b".toList)] := by
  refine ⟨?_, rfl, rfl⟩
  decide

/-- Claim C6, amended: Print's arguments alternate between literal HTML and
escaped value starting with literal, with consecutive plain strings strictly
alternating; a non-string item is always escaped as a value and RESETS the
alternation, so the string following it is literal; a nested List starts its
own alternation afresh for its contents and ALSO resets the parent's
alternation.  In particular `Print("a", "b", "c")` treats `"a"` as literal,
`"b"` as an escaped value, and `"c"` as literal. -/
theorem c6_print_alternation_amended :
    (∀ s rest, printWalk (ArgList.acons (Arg.astr s) rest) false =
        POp.lit s :: printWalk rest true) ∧
      (∀ s rest, printWalk (ArgList.acons (Arg.astr s) rest) true =
        POp.valStr s :: printWalk rest false) ∧
      (∀ n rest b, printWalk (ArgList.acons (Arg.aother n) rest) b =
        POp.valOther n :: printWalk rest false) ∧
      (∀ l rest b, printWalk (ArgList.acons (Arg.alist l) rest) b =
        printWalk l false ++ printWalk rest false) ∧
      (∀ l, printOps l = printWalk l false) ∧
      (∀ a b c, printOps (ArgList.acons (Arg.astr a) (ArgList.acons (Arg.astr b)
          (ArgList.acons (Arg.astr c) ArgList.anil))) =
        [POp.lit a, POp.valStr b, POp.lit c]) := by
  refine ⟨?_, ?_, ?_, ?_, ?_, ?_⟩ <;> intros <;> simp [printOps, printWalk]

theorem trustedOf_none_of_capability :
    ∀ v : GoVal, implementsStringer v = true ∨ implementsError v = true →
      trustedOf (indirect v) = none := by
  intro v
  induction v with
  | vptr w ih =>
      intro h
      have h' : implementsStringer w = true ∨ implementsError w = true := by
        simpa [implementsStringer, implementsError] using h
      simpa [indirect] using ih h'
  | vstringer t => intro h; rfl
  | verr t => intro h; rfl
  | vnil => intro h; simp [implementsStringer, implementsError] at h
  | vstr s => intro h; simp [implementsStringer, implementsError] at h
  | vcss s => intro h; simp [implementsStringer, implementsError] at h
  | vhtml s => intro h; simp [implementsStringer, implementsError] at h
  | vhtmlAttr s => intro h; simp [implementsStringer, implementsError] at h
  | vjs s => intro h; simp [implementsStringer, implementsError] at h
  | vjsStr s => intro h; simp [implementsStringer, implementsError] at h
  | vurl s => intro h; simp [implementsStringer, implementsError] at h
  | vnilPtr => intro h; simp [implementsStringer, implementsError] at h
  | vother t => intro h; simp [implementsStringer, implementsError] at h

theorem trustedOf_indirect_eq_stop :
    ∀ a : GoVal, trustedOf (indirect a) = trustedOf (indirectToStringerOrError a) := by
  intro a
  induction a with
  | vptr w ih =>
      by_cases h : (implementsStringer (GoVal.vptr w) ||
          implementsError (GoVal.vptr w)) = true
      · have hcap : implementsStringer (GoVal.vptr w) = true ∨
            implementsError (GoVal.vptr w) = true := by
          simpa [Bool.or_eq_true] using h
        rw [show indirectToStringerOrError (GoVal.vptr w) = GoVal.vptr w by
          simp [indirectToStringerOrError, h]]
        rw [trustedOf_none_of_capability _ hcap]
        rfl
      · rw [show indirectToStringerOrError (GoVal.vptr w) =
            indirectToStringerOrError w by simp [indirectToStringerOrError, h]]
        rw [show indirect (GoVal.vptr w) = indirect w from rfl]
        exact ih
  | vnil => rfl
  | vstr s => rfl
  | vcss s => rfl
  | vhtml s => rfl
  | vhtmlAttr s => rfl
  | vjs s => rfl
  | vjsStr s => rfl
  | vurl s => rfl
  | vstringer t => rfl
  | verr t => rfl
  | vnilPtr => rfl
  | vother t => rfl

theorem doPrintAux_false_cons :
    ∀ (rest : List GoVal) (w : GoVal) (p : Bool),
      doPrintAux false p (w :: rest) =
        (if (isStringKind w || p) = true then [] else [' ']) ++ spaceJoin (w :: rest) := by
  intro rest
  induction rest with
  | nil => intro w p; simp [doPrintAux, spaceJoin]
  | cons u rest' ih =>
      intro w p
      rw [show doPrintAux false p (w :: u :: rest') =
        (if (false || isStringKind w || p) = true then [] else [' ']) ++
          sprintOne w ++ doPrintAux false (isStringKind w) (u :: rest') from rfl]
      rw [ih u (isStringKind w)]
      simp [spaceJoin, Bool.or_comm]

theorem fmtSprint_eq_spaceJoin : ∀ l : List GoVal, fmtSprint l = spaceJoin l := by
  intro l
  cases l with
  | nil => rfl
  | cons v rest =>
      cases rest with
      | nil => simp [fmtSprint, doPrintAux, spaceJoin]
      | cons u rest' =>
          rw [show fmtSprint (v :: u :: rest') =
            sprintOne v ++ doPrintAux false (isStringKind v) (u :: rest') by
              simp [fmtSprint, doPrintAux]]
          rw [doPrintAux_false_cons]
          simp [spaceJoin, Bool.or_comm]

/-- Counterexample to claim C7 as stated.  For multiple arguments the claim
says the default textual representations are concatenated "with no
separator", but stringify formats them with fmt.Sprint, which inserts a
space between two adjacent operands when neither is a string: two non-string
values render as `1 2`, not `12`. -/
theorem c7_separator_counterexample :
    stringify [GoVal.vother ("1".toList), GoVal.vother ("2".toList)] =
        ("1 2".toList, contentTypePlain) ∧
      noSepConcat [GoVal.vother ("1".toList), GoVal.vother ("2".toList)] =
        "12".toList ∧
      stringify [GoVal.vother ("1".toList), GoVal.vother ("2".toList)] ≠
        (noSepConcat [GoVal.vother ("1".toList), GoVal.vother ("2".toList)],
         contentTypePlain) := by
  refine ⟨rfl, rfl, ?_⟩
  decide

/-- Claim C7, amended: a single argument is reduced through pointer
indirections with the stop-at-Stringer-or-error rule; if the reduced value
carries a trusted marker type (or is a plain string), its text and trust tag
are used; otherwise every argument is independently reduced with the same
stop rule and the default textual representations are concatenated, with a
space inserted between two adjacent operands when neither is a string (the
fmt.Sprint rule) — rather than with no separator. -/
theorem c7_stringify_amended (args : List GoVal) : stringify args = stringifySpec args := by
  match args with
  | [] => rfl
  | a :: b :: rest =>
      rw [show stringify (a :: b :: rest) =
        (fmtSprint ((a :: b :: rest).map indirectToStringerOrError),
          contentTypePlain) from rfl]
      rw [show stringifySpec (a :: b :: rest) =
        (spaceJoin ((a :: b :: rest).map indirectToStringerOrError),
          contentTypePlain) from rfl]
      rw [fmtSprint_eq_spaceJoin]
  | [a] =>
      have hT := trustedOf_indirect_eq_stop a
      have hspec : stringifySpec [a] =
          (match trustedOf (indirectToStringerOrError a) with
           | some p => p
           | none => (spaceJoin [indirectToStringerOrError a], contentTypePlain)) := rfl
      cases hia : indirect a with
      | vstr s =>
          rw [hia] at hT
          rw [hspec, ← hT]
          simp [stringify, hia, trustedOf]
      | vcss s =>
          rw [hia] at hT
          rw [hspec, ← hT]
          simp [stringify, hia, trustedOf]
      | vhtml s =>
          rw [hia] at hT
          rw [hspec, ← hT]
          simp [stringify, hia, trustedOf]
      | vhtmlAttr s =>
          rw [hia] at hT
          rw [hspec, ← hT]
          simp [stringify, hia, trustedOf]
      | vjs s =>
          rw [hia] at hT
          rw [hspec, ← hT]
          simp [stringify, hia, trustedOf]
      | vjsStr s =>
          rw [hia] at hT
          rw [hspec, ← hT]
          simp [stringify, hia, trustedOf]
      | vurl s =>
          rw [hia] at hT
          rw [hspec, ← hT]
          simp [stringify, hia, trustedOf]
      | vnil =>
          rw [hia] at hT
          rw [hspec, ← hT]
          simp [stringify, hia, trustedOf, fmtSprint_eq_spaceJoin]
      | vstringer t =>
          rw [hia] at hT
          rw [hspec, ← hT]
          simp [stringify, hia, trustedOf, fmtSprint_eq_spaceJoin]
      | verr t =>
          rw [hia] at hT
          rw [hspec, ← hT]
          simp [stringify, hia, trustedOf, fmtSprint_eq_spaceJoin]
      | vptr w =>
          rw [hia] at hT
          rw [hspec, ← hT]
          simp [stringify, hia, trustedOf, fmtSprint_eq_spaceJoin]
      | vnilPtr =>
          rw [hia] at hT
          rw [hspec, ← hT]
          simp [stringify, hia, trustedOf, fmtSprint_eq_spaceJoin]
      | vother t =>
          rw [hia] at hT
          rw [hspec, ← hT]
          simp [stringify, hia, trustedOf, fmtSprint_eq_spaceJoin]

theorem literal_quote_beforeValue (c : Context)
    (hbv : c.state = stateBeforeValue) (hd : c.delim = delimNone)
    (he0 : c.err = none) :
    literal c ['"'] =
      ({ c with state := attrStartStates c.attr, delim := delimDoubleQuote },
       ['"'], none) := by
  obtain ⟨st, d, up, jc, ak, el, er⟩ := c
  dsimp only at hbv hd he0
  subst hbv
  subst hd
  subst he0
  cases el <;> rfl

/-- Counterexample to claim C8 as stated.  The claim says that in every
non-error state other than before-attribute-value, Value writes the filtered
text via writeLiteral; but in the (non-error) URL state with unknown url
part, Value refuses the emission, writing nothing and returning an error. -/
theorem c8_nonerror_refusal_counterexample :
    (⟨stateURL, delimDoubleQuote, urlPartUnknown, jsCtxRegexp, attrURL,
        elementNone, none⟩ : Context).state ≠ stateError ∧
      (value ⟨stateURL, delimDoubleQuote, urlPartUnknown, jsCtxRegexp, attrURL,
        elementNone, none⟩ ("x".toList)).out = [] ∧
      (value ⟨stateURL, delimDoubleQuote, urlPartUnknown, jsCtxRegexp, attrURL,
        elementNone, none⟩ ("x".toList)).err = some (ambigErr ("x".toList)) := by
  decide

/-- Claim C8, amended: automatic quoting by Value.  Provided the call is not
refused (it returns no error) and the quote writes succeed, then: called in
the before-attribute-value state (whose delimiter is still none and whose
context is error-free) Value writes a literal double-quote, then the filtered
value text, then a closing double-quote; called in any other non-error state
it writes only the filtered text via writeLiteral. -/
theorem c8_autoquote_amended (c : Context) (v : Str)
    (_hs : c.state ≠ stateError)
    (he0 : c.err = none)
    (hd : c.state = stateBeforeValue → c.delim = delimNone)
    (he : (value c v).err = none)
    (hc : c.state = stateBeforeValue →
      (literal (valueBody (openQuoteCtx c) v).ctx ['"']).2.2 = none) :
    (value c v).out =
      if c.state = stateBeforeValue
      then '"' :: (valueFiltered (openQuoteCtx c) v ++ ['"'])
      else valueFiltered c v := by
  by_cases hbv : c.state = stateBeforeValue
  · rw [if_pos hbv]
    have hdel := hd hbv
    have hq := literal_quote_beforeValue c hbv hdel he0
    have hoc : openQuoteCtx c =
        { c with state := attrStartStates c.attr, delim := delimDoubleQuote } := by
      rw [openQuoteCtx, hq]
    simp only [value, hbv, if_true, hq] at he ⊢
    have hc' := hc hbv
    rw [hoc] at hc'
    have h1 := valueBody_out _ v he
    have h2 := literal_out_none _ ['"'] hc'
    rw [h1, h2, hoc]
    simp
  · rw [if_neg hbv]
    rw [show value c v = valueBody c v from by rw [value, if_neg hbv]] at he ⊢
    exact valueBody_out c v he

/-- Witness for C8 at the concrete before-attribute-value context (for the
quoting branch) applied to the value `x`. -/
theorem c8_autoquote_amended_witness :
    (value ⟨stateBeforeValue, delimNone, urlPartNone, jsCtxRegexp, attrNone,
        elementNone, none⟩ ("x".toList)).out =
      if (⟨stateBeforeValue, delimNone, urlPartNone, jsCtxRegexp, attrNone,
          elementNone, none⟩ : Context).state = stateBeforeValue
      then '"' :: (valueFiltered
        (openQuoteCtx ⟨stateBeforeValue, delimNone, urlPartNone, jsCtxRegexp,
          attrNone, elementNone, none⟩) ("x".toList) ++ ['"'])
      else valueFiltered ⟨stateBeforeValue, delimNone, urlPartNone, jsCtxRegexp,
        attrNone, elementNone, none⟩ ("x".toList) :=
  c8_autoquote_amended
    ⟨stateBeforeValue, delimNone, urlPartNone, jsCtxRegexp, attrNone, elementNone, none⟩
    ("x".toList) (by decide) rfl (fun _ => rfl) (by decide) (fun _ => by decide)

end Escaper
